import Mathlib

/-!
Verification of the payout engine, news validation and filtering, the
rate-configuration cache store and the article acquisition chain of the
responsive-news-dashboard repository.  The TypeScript sources
(`src/redux/payoutSlice.ts`, the news slice in the same file, and the
IndexedDB service) are embedded shallowly: machine numbers become exact
rationals, the insertion-ordered JavaScript `Map` becomes a list of
aggregates keyed by author, and asynchronous storage becomes explicit
state passing.
-/

/-- Payout rate table (`PayoutRate` in the shared type definitions):
per-article rates for news and blog content. -/
structure PayoutRate where
  newsRate : ℚ
  blogRate : ℚ
deriving DecidableEq

/-- An article (`Article` in the shared type definitions), restricted to the
fields that the embedded operations read.  The article type field is modelled
as a string because the code compares it with strict equality against the
literal string "news" and never constrains it otherwise. -/
structure Article where
  id : String
  title : String
  description : String
  author : String
  publishedAt : String
  type_ : String
deriving DecidableEq

/-- A per-article payout line item, as pushed by `calculatePayouts`
(payoutSlice.ts 97-103): `{ id, title, type, publishedAt, rate }`. -/
structure PayoutArticle where
  id : String
  title : String
  type_ : String
  publishedAt : String
  rate : ℚ
deriving DecidableEq

/-- A per-author aggregate (`AuthorPayout` in the shared type definitions). -/
structure AuthorPayout where
  author : String
  articleCount : Nat
  totalPayout : ℚ
  articles : List PayoutArticle
deriving DecidableEq

/-- Rate resolution used at payoutSlice.ts line 83 and line 162:
`type === 'news' ? rates.newsRate : rates.blogRate`. -/
def rateFor (rates : PayoutRate) (t : String) : ℚ :=
  if t = "news" then rates.newsRate else rates.blogRate

/-- The line item pushed for one processed article (payoutSlice.ts 97-103). -/
def lineItem (rates : PayoutRate) (a : Article) : PayoutArticle :=
  { id := a.id, title := a.title, type_ := a.type_,
    publishedAt := a.publishedAt, rate := rateFor rates a.type_ }

/-- The fresh aggregate inserted when an author is first seen
(payoutSlice.ts 85-92). -/
def emptyPayout (author : String) : AuthorPayout :=
  { author := author, articleCount := 0, totalPayout := 0, articles := [] }

/-- The mutation applied to the matching author's aggregate for one article
(payoutSlice.ts 94-103): count and total are incremented and the line item is
appended.  Aggregates of other authors are untouched. -/
def applyArticle (rates : PayoutRate) (a : Article) (p : AuthorPayout) :
    AuthorPayout :=
  if p.author = a.author then
    { p with articleCount := p.articleCount + 1,
             totalPayout := p.totalPayout + rateFor rates a.type_,
             articles := p.articles ++ [lineItem rates a] }
  else p

/-- One iteration of the `articles.forEach` loop of `calculatePayouts`
(payoutSlice.ts 81-104).  The insertion-ordered `Map<string, AuthorPayout>`
is modelled as a list of aggregates: a missing author is appended at the end
(`authors.set`), and the in-place mutation of the unique matching entry is a
map over the list. -/
def calcStep (rates : PayoutRate) (acc : List AuthorPayout) (a : Article) :
    List AuthorPayout :=
  (if acc.any (fun p => p.author == a.author) then acc
   else acc ++ [emptyPayout a.author]).map (applyArticle rates a)

/-- The `calculatePayouts` reducer body (payoutSlice.ts 77-107): a pass over
the article collection building the author map, returned in insertion order
(`Array.from(authors.values())`). -/
def calculatePayouts (articles : List Article) (rates : PayoutRate) :
    List AuthorPayout :=
  articles.foldl (calcStep rates) []

/-- The per-aggregate update performed by `recalculatePayouts`
(payoutSlice.ts 159-175): every stored line item's rate is recomputed from
its stored type and the total is re-summed. -/
def recalcArticle (rates : PayoutRate) (a : PayoutArticle) : PayoutArticle :=
  { a with rate := rateFor rates a.type_ }

/-- The body of the `payouts.map` callback in `recalculatePayouts`
(payoutSlice.ts 159-175).  The code accumulates `totalPayout` while mapping;
with exact arithmetic that accumulation is the sum of the updated rates in
order. -/
def recalcPayout (rates : PayoutRate) (p : AuthorPayout) : AuthorPayout :=
  let updatedArticles := p.articles.map (recalcArticle rates)
  { p with totalPayout := (updatedArticles.map (fun a => a.rate)).sum,
           articles := updatedArticles }

/-- The `recalculatePayouts` helper (payoutSlice.ts 158-176). -/
def recalculatePayouts (payouts : List AuthorPayout) (rates : PayoutRate) :
    List AuthorPayout :=
  payouts.map (recalcPayout rates)

/-- Spec-side definition (spec section 4.3, "authors appear in the order
their first article was encountered in the input"): the distinct authors of
the collection, each listed at the position of its first occurrence. -/
def firstOccurrenceAuthors (articles : List Article) : List String :=
  articles.foldl (fun ks a => if a.author ∈ ks then ks else ks ++ [a.author]) []

/-- The aggregate that a single author should receive, derived directly from
the author's articles; target of the characterisation theorem for
`calculatePayouts`. -/
def authorAggregate (articles : List Article) (rates : PayoutRate)
    (auth : String) : AuthorPayout :=
  let own := articles.filter (fun a => a.author == auth)
  { author := auth,
    articleCount := own.length,
    totalPayout := (own.map (fun a => rateFor rates a.type_)).sum,
    articles := own.map (lineItem rates) }

example :
    calculatePayouts
      [⟨"1", "t", "", "A", "d", "news"⟩, ⟨"2", "u", "", "B", "d", "blog"⟩,
       ⟨"3", "v", "", "A", "d", "blog"⟩] ⟨50, 100⟩ =
    [⟨"A", 2, 150, [⟨"1", "t", "news", "d", 50⟩, ⟨"3", "v", "blog", "d", 100⟩]⟩,
     ⟨"B", 1, 100, [⟨"2", "u", "blog", "d", 100⟩]⟩] := by
  norm_num +decide [calculatePayouts, calcStep, applyArticle, emptyPayout,
    lineItem, rateFor]

theorem calculatePayouts_append (A : List Article) (a : Article)
    (R : PayoutRate) :
    calculatePayouts (A ++ [a]) R = calcStep R (calculatePayouts A R) a := by
  simp [calculatePayouts, List.foldl_append]

theorem firstOccurrenceAuthors_append (A : List Article) (a : Article) :
    firstOccurrenceAuthors (A ++ [a]) =
      if a.author ∈ firstOccurrenceAuthors A then firstOccurrenceAuthors A
      else firstOccurrenceAuthors A ++ [a.author] := by
  simp [firstOccurrenceAuthors, List.foldl_append]

theorem mem_firstOccurrenceAuthors (A : List Article) (x : String) :
    x ∈ firstOccurrenceAuthors A ↔ ∃ a ∈ A, a.author = x := by
  induction A using List.reverseRecOn with
  | nil => simp [firstOccurrenceAuthors]
  | append_singleton A a ih =>
      rw [firstOccurrenceAuthors_append]
      by_cases h : a.author ∈ firstOccurrenceAuthors A
      · rw [if_pos h, ih]
        constructor
        · rintro ⟨b, hb, rfl⟩
          exact ⟨b, List.mem_append_left _ hb, rfl⟩
        · rintro ⟨b, hb, rfl⟩
          rcases List.mem_append.1 hb with hb | hb
          · exact ⟨b, hb, rfl⟩
          · have hb' : b = a := by simpa using hb
            subst hb'
            exact ih.1 h
      · rw [if_neg h]
        simp only [List.mem_append, List.mem_singleton, ih]
        constructor
        · rintro (⟨b, hb, rfl⟩ | rfl)
          · exact ⟨b, Or.inl hb, rfl⟩
          · exact ⟨a, Or.inr rfl, rfl⟩
        · rintro ⟨b, hb | hb, rfl⟩
          · exact Or.inl ⟨b, hb, rfl⟩
          · subst hb
            exact Or.inr rfl

theorem nodup_firstOccurrenceAuthors (A : List Article) :
    (firstOccurrenceAuthors A).Nodup := by
  induction A using List.reverseRecOn with
  | nil => simp [firstOccurrenceAuthors]
  | append_singleton A a ih =>
      rw [firstOccurrenceAuthors_append]
      by_cases h : a.author ∈ firstOccurrenceAuthors A
      · rwa [if_pos h]
      · rw [if_neg h]
        simp [List.nodup_append, ih, h]

theorem authorAggregate_author (A : List Article) (R : PayoutRate)
    (x : String) : (authorAggregate A R x).author = x := rfl

theorem applyArticle_authorAggregate (A : List Article) (R : PayoutRate)
    (a : Article) (x : String) :
    applyArticle R a (authorAggregate A R x) = authorAggregate (A ++ [a]) R x := by
  by_cases h : x = a.author
  · subst h
    simp [applyArticle, authorAggregate, List.filter_append, add_comm]
  · simp [applyArticle, authorAggregate, List.filter_append, h, Ne.symm h]

theorem applyArticle_emptyPayout (A : List Article) (R : PayoutRate)
    (a : Article) (hA : A.filter (fun b => b.author == a.author) = []) :
    applyArticle R a (emptyPayout a.author) =
      authorAggregate (A ++ [a]) R a.author := by
  simp [applyArticle, emptyPayout, authorAggregate, List.filter_append, hA]

/-- Characterisation of `calculatePayouts`: the output lists, in
first-occurrence order of authors, the aggregate derived from each author's
own articles. -/
theorem calculatePayouts_characterisation (A : List Article) (R : PayoutRate) :
    calculatePayouts A R =
      (firstOccurrenceAuthors A).map (authorAggregate A R) := by
  induction A using List.reverseRecOn with
  | nil => rfl
  | append_singleton A a ih =>
      rw [calculatePayouts_append, firstOccurrenceAuthors_append, ih, calcStep]
      by_cases h : a.author ∈ firstOccurrenceAuthors A
      · have hany : (((firstOccurrenceAuthors A).map (authorAggregate A R)).any
            (fun p => p.author == a.author)) = true := by
          rw [List.any_eq_true]
          exact ⟨authorAggregate A R a.author, List.mem_map_of_mem _ h,
            by simp [authorAggregate_author]⟩
        rw [if_pos h, hany]
        simp only [if_true, List.map_map]
        exact List.map_congr_left fun x _ => applyArticle_authorAggregate A R a x
      · have hany : (((firstOccurrenceAuthors A).map (authorAggregate A R)).any
            (fun p => p.author == a.author)) = false := by
          rw [List.any_eq_false]
          rintro p hp
          rcases List.mem_map.1 hp with ⟨x, hx, rfl⟩
          simp only [authorAggregate_author, beq_iff_eq]
          rintro rfl
          exact h hx
        have hfilter : A.filter (fun b => b.author == a.author) = [] := by
          rw [List.filter_eq_nil_iff]
          intro b hb
          simp only [beq_iff_eq]
          intro hba
          exact h ((mem_firstOccurrenceAuthors A a.author).2 ⟨b, hb, hba⟩)
        rw [if_neg h, hany]
        simp only [Bool.false_eq_true, if_false, List.map_append, List.map_map,
          List.map_singleton]
        rw [applyArticle_emptyPayout A R a hfilter]
        congr 1
        exact List.map_congr_left fun x _ => applyArticle_authorAggregate A R a x

theorem sum_map_if_add (g : String → ℚ) (c : ℚ) (y : String) :
    ∀ ks : List String, ks.Nodup → y ∈ ks →
      (ks.map (fun x => if y = x then c + g x else g x)).sum =
        c + (ks.map g).sum := by
  intro ks
  induction ks with
  | nil => simp
  | cons k ks ih =>
      intro hnd hy
      have hk : k ∉ ks := (List.nodup_cons.1 hnd).1
      have hnd' : ks.Nodup := (List.nodup_cons.1 hnd).2
      simp only [List.map_cons, List.sum_cons]
      by_cases hyk : y = k
      · subst hyk
        rw [if_pos rfl]
        have hmap : ks.map (fun x => if y = x then c + g x else g x) =
            ks.map g := by
          apply List.map_congr_left
          intro x hx
          rw [if_neg]
          rintro rfl
          exact hk hx
        rw [hmap, add_assoc]
      · rw [if_neg hyk]
        have hy' : y ∈ ks := by
          rcases List.mem_cons.1 hy with h | h
          · exact absurd h hyk
          · exact h
        rw [ih hnd' hy']
        ring

theorem sum_filter_partition (f : Article → ℚ) :
    ∀ (A : List Article) (ks : List String), ks.Nodup →
      (∀ a ∈ A, a.author ∈ ks) →
      (ks.map (fun x => ((A.filter (fun b => b.author == x)).map f).sum)).sum =
        (A.map f).sum := by
  intro A
  induction A with
  | nil =>
      intro ks _ _
      simp
  | cons a A ih =>
      intro ks hnd hcov
      have ha : a.author ∈ ks := hcov a (List.mem_cons_self a A)
      have hcov' : ∀ b ∈ A, b.author ∈ ks :=
        fun b hb => hcov b (List.mem_cons_of_mem a hb)
      have hstep :
          ks.map (fun x =>
              (((a :: A).filter (fun b => b.author == x)).map f).sum) =
            ks.map (fun x =>
              if a.author = x then
                f a + ((A.filter (fun b => b.author == x)).map f).sum
              else ((A.filter (fun b => b.author == x)).map f).sum) := by
        apply List.map_congr_left
        intro x _
        by_cases hax : a.author = x
        · simp [List.filter_cons, hax]
        · simp [List.filter_cons, hax]
      rw [hstep, sum_map_if_add _ _ _ ks hnd ha, ih ks hnd hcov']
      simp

/-- C1: for every article collection and rate table, the sum of `totalPayout`
over all aggregates produced by `calculatePayouts` equals the sum over the
articles of the rate resolved for each article's type (`newsRate` for news,
`blogRate` for blog). -/
theorem payout_total_sum_correct (A : List Article) (R : PayoutRate) :
    ((calculatePayouts A R).map (fun p => p.totalPayout)).sum =
      (A.map (fun a => rateFor R a.type_)).sum := by
  rw [calculatePayouts_characterisation, List.map_map]
  exact sum_filter_partition (fun a => rateFor R a.type_) A
    (firstOccurrenceAuthors A) (nodup_firstOccurrenceAuthors A)
    (fun a ha => (mem_firstOccurrenceAuthors A a.author).2 ⟨a, ha, rfl⟩)

/-- C2: every aggregate produced by `calculatePayouts` has `articleCount`
equal to the length of its line-item list and to the number of input articles
with that author, and `totalPayout` equal to the sum of the rate fields of its
line items. -/
theorem payout_aggregate_invariants (A : List Article) (R : PayoutRate)
    (p : AuthorPayout) (hp : p ∈ calculatePayouts A R) :
    p.articleCount = p.articles.length ∧
    p.articleCount = (A.filter (fun a => a.author == p.author)).length ∧
    p.totalPayout = (p.articles.map (fun it => it.rate)).sum := by
  rw [calculatePayouts_characterisation] at hp
  rcases List.mem_map.1 hp with ⟨x, _, rfl⟩
  refine ⟨?_, ?_, ?_⟩
  · simp [authorAggregate]
  · simp [authorAggregate]
  · simp only [authorAggregate, List.map_map]
    exact congrArg List.sum (List.map_congr_left fun a _ => rfl)

theorem payout_aggregate_invariants_witness :
    (⟨"au", 1, 2, [⟨"i", "t", "news", "d", 2⟩]⟩ : AuthorPayout).articleCount =
        (⟨"au", 1, 2, [⟨"i", "t", "news", "d", 2⟩]⟩ :
          AuthorPayout).articles.length ∧
    (⟨"au", 1, 2, [⟨"i", "t", "news", "d", 2⟩]⟩ : AuthorPayout).articleCount =
        (([⟨"i", "t", "", "au", "d", "news"⟩] : List Article).filter
          (fun a => a.author ==
            (⟨"au", 1, 2, [⟨"i", "t", "news", "d", 2⟩]⟩ :
              AuthorPayout).author)).length ∧
    (⟨"au", 1, 2, [⟨"i", "t", "news", "d", 2⟩]⟩ : AuthorPayout).totalPayout =
        (((⟨"au", 1, 2, [⟨"i", "t", "news", "d", 2⟩]⟩ :
            AuthorPayout).articles).map (fun it => it.rate)).sum :=
  payout_aggregate_invariants [⟨"i", "t", "", "au", "d", "news"⟩] ⟨2, 3⟩
    ⟨"au", 1, 2, [⟨"i", "t", "news", "d", 2⟩]⟩
    (by norm_num +decide [calculatePayouts, calcStep, applyArticle,
      emptyPayout, lineItem, rateFor])

theorem recalcPayout_authorAggregate (A : List Article) (R1 R2 : PayoutRate)
    (x : String) :
    recalcPayout R2 (authorAggregate A R1 x) = authorAggregate A R2 x := by
  simp only [recalcPayout, authorAggregate, List.map_map]
  refine congrArg₂ (fun t l => AuthorPayout.mk x
      (List.filter (fun a => a.author == x) A).length t l) ?_ ?_
  · exact congrArg List.sum (List.map_congr_left fun a _ => rfl)
  · exact List.map_congr_left fun a _ => rfl

/-- C3: rescaling the aggregates computed under one rate table to another
(`recalculatePayouts` after `calculatePayouts`) yields exactly the aggregates
computed directly under the second rate table. -/
theorem rescale_equivalence (A : List Article) (R1 R2 : PayoutRate) :
    recalculatePayouts (calculatePayouts A R1) R2 = calculatePayouts A R2 := by
  rw [calculatePayouts_characterisation A R1,
    calculatePayouts_characterisation A R2, recalculatePayouts, List.map_map]
  exact List.map_congr_left fun x _ => recalcPayout_authorAggregate A R1 R2 x

/-- C4: the authors in the output of `calculatePayouts` appear in
first-occurrence order of the input collection, and this order does not
depend on the rate table. -/
theorem payout_author_order_first_occurrence (A : List Article)
    (R1 R2 : PayoutRate) :
    (calculatePayouts A R1).map (fun p => p.author) =
        firstOccurrenceAuthors A ∧
    (calculatePayouts A R1).map (fun p => p.author) =
        (calculatePayouts A R2).map (fun p => p.author) := by
  have h : ∀ R : PayoutRate,
      (calculatePayouts A R).map (fun p => p.author) =
        firstOccurrenceAuthors A := by
    intro R
    rw [calculatePayouts_characterisation, List.map_map]
    have hmap : List.map ((fun p => p.author) ∘ authorAggregate A R)
        (firstOccurrenceAuthors A) =
          List.map id (firstOccurrenceAuthors A) :=
      List.map_congr_left fun x _ => rfl
    rw [hmap, List.map_id]
  exact ⟨h R1, (h R1).trans (h R2).symm⟩

/-- Projection of a line item to its rate-independent fields. -/
def lineItemFrame (it : PayoutArticle) : String × String × String × String :=
  (it.id, it.title, it.type_, it.publishedAt)

/-- Projection of an aggregate to everything except the per-item rates and
the total payout. -/
def payoutFrame (p : AuthorPayout) :
    String × Nat × List (String × String × String × String) :=
  (p.author, p.articleCount, p.articles.map lineItemFrame)

/-- C5: `recalculatePayouts` changes only the per-item rate and per-author
total: author, article count, and the order and the id, title, type and
publication date of every line item are preserved. -/
theorem recalculate_frame_preservation (P : List AuthorPayout)
    (R : PayoutRate) :
    (recalculatePayouts P R).map payoutFrame = P.map payoutFrame := by
  rw [recalculatePayouts, List.map_map]
  apply List.map_congr_left
  intro p _
  simp [payoutFrame, recalcPayout, lineItemFrame, recalcArticle,
    List.map_map, Function.comp]

/-- C10: rate resolution is total and defaults to the blog rate: any article
or stored line item whose type differs from "news" resolves to
`rates.blogRate`, both in `calculatePayouts` and in `recalculatePayouts`. -/
theorem rate_resolution_defaults_blog (R : PayoutRate) (t : String)
    (ht : t ≠ "news") :
    rateFor R t = R.blogRate ∧
    (∀ (A : List Article) (p : AuthorPayout), p ∈ calculatePayouts A R →
      ∀ it ∈ p.articles, it.type_ = t → it.rate = R.blogRate) ∧
    (∀ (P : List AuthorPayout) (p : AuthorPayout),
      p ∈ recalculatePayouts P R →
      ∀ it ∈ p.articles, it.type_ = t → it.rate = R.blogRate) := by
  have hr : rateFor R t = R.blogRate := if_neg ht
  refine ⟨hr, ?_, ?_⟩
  · intro A p hp it hit htype
    rw [calculatePayouts_characterisation] at hp
    rcases List.mem_map.1 hp with ⟨x, _, rfl⟩
    have hit' : it ∈ (A.filter (fun a => a.author == x)).map (lineItem R) :=
      hit
    rcases List.mem_map.1 hit' with ⟨a, _, rfl⟩
    show rateFor R a.type_ = R.blogRate
    rw [show a.type_ = t from htype]
    exact hr
  · intro P p hp it hit htype
    rw [recalculatePayouts] at hp
    rcases List.mem_map.1 hp with ⟨q, _, rfl⟩
    have hit' : it ∈ q.articles.map (recalcArticle R) := hit
    rcases List.mem_map.1 hit' with ⟨j, _, rfl⟩
    show rateFor R j.type_ = R.blogRate
    rw [show j.type_ = t from htype]
    exact hr

/-- A raw payload entry as received by `fetchNewsSuccess`: either a value
that is not a (non-null) object, or an article object.  A missing id is
modelled as the empty string, matching JavaScript falsiness. -/
inductive RawEntry where
  | junkValue : RawEntry
  | objectEntry : Article → RawEntry
deriving DecidableEq

/-- The filter condition of `fetchNewsSuccess` (news slice, lines 250-252):
the JS truthiness of `article && typeof article === 'object' && article.id`. -/
def fetchNewsKeep : RawEntry → Bool
  | .junkValue => false
  | .objectEntry a => a.id != ""

/-- The cleaning performed by `fetchNewsSuccess` (news slice 244-257): the
validated collection installed into `articles` and `filteredArticles`. -/
def fetchNewsSuccessClean (payload : List RawEntry) : List RawEntry :=
  payload.filter fetchNewsKeep

/-- Spec-side predicate (spec section 3 invariant): an entry is retained
exactly when it is an object with a non-empty id. -/
def specValidEntry : RawEntry → Bool
  | .junkValue => false
  | .objectEntry a => decide (a.id ≠ "")

/-- C6: the validated collection installed by `fetchNewsSuccess` contains
exactly the entries that are objects with a non-empty id, in their original
relative order; entries with a missing or empty id are excluded and all
others retained. -/
theorem fetch_news_success_validation (payload : List RawEntry) :
    fetchNewsSuccessClean payload = payload.filter specValidEntry ∧
    (fetchNewsSuccessClean payload).Sublist payload := by
  constructor
  · apply List.filter_congr
    intro e _
    cases e with
    | junkValue => rfl
    | objectEntry a =>
        simp only [fetchNewsKeep, specValidEntry]
        rw [Bool.eq_iff_iff]
        simp [bne_iff_ne]
  · exact List.filter_sublist payload

/-- Filter criteria (`FilterState` in the shared type definitions); the
author and date bounds are nullable strings. -/
structure FilterState where
  author : Option String
  dateFrom : Option String
  dateTo : Option String
  type_ : String
  searchQuery : String
deriving DecidableEq

/-- Case-insensitive substring test, modelling
`hay.toLowerCase().includes(needle.toLowerCase())`. -/
def containsLower (hay needle : String) : Bool :=
  decide (List.IsInfix needle.toLower.toList hay.toLower.toList)

/-- The author filter stage of `filterNews` (news slice 304-309), guarded by
the truthiness of `author`. -/
def authorStage : Option String → List Article → List Article
  | some s, l =>
      if s = "" then l
      else l.filter (fun art => art.author != "" && containsLower art.author s)
  | none, l => l

/-- The lower publish-date stage of `filterNews` (news slice 312-319).
`fromDate` is parsed once; an article passes when its own date is truthy and
parses and `new Date(publishedAt) >= fromDate` holds, which is false
whenever `fromDate` is invalid (NaN).  `parseDate` abstracts
`new Date(s).getTime()`, with `none` standing for NaN. -/
def dateLowerStage (parseDate : String → Option Int) :
    Option String → List Article → List Article
  | some s, l =>
      if s = "" then l
      else
        l.filter (fun art => art.publishedAt != "" &&
          match parseDate art.publishedAt with
          | some t =>
              match parseDate s with
              | some f => decide (f ≤ t)
              | none => false
          | none => false)
  | none, l => l

/-- The upper publish-date stage of `filterNews` (news slice 320-327),
symmetric to the lower one. -/
def dateUpperStage (parseDate : String → Option Int) :
    Option String → List Article → List Article
  | some s, l =>
      if s = "" then l
      else
        l.filter (fun art => art.publishedAt != "" &&
          match parseDate art.publishedAt with
          | some t =>
              match parseDate s with
              | some f => decide (t ≤ f)
              | none => false
          | none => false)
  | none, l => l

/-- The type filter stage (news slice 330-334), guarded by
`type && type !== 'all'`. -/
def typeStage (t : String) (l : List Article) : List Article :=
  if t != "" && t != "all" then
    l.filter (fun art => art.type_ != "" && art.type_ == t)
  else l

/-- The free-text search stage (news slice 337-347): case-insensitive
substring match against title, description or author. -/
def searchStage (q : String) (l : List Article) : List Article :=
  if q = "" then l
  else
    l.filter (fun art =>
      (art.title != "" && containsLower art.title q) ||
      (art.description != "" && containsLower art.description q) ||
      (art.author != "" && containsLower art.author q))

/-- The `filterNews` reducer body (news slice 295-357): the filter stages
applied in source order to the article collection. -/
def filterNews (parseDate : String → Option Int) (articles : List Article)
    (fs : FilterState) : List Article :=
  searchStage fs.searchQuery
    (typeStage fs.type_
      (dateUpperStage parseDate fs.dateTo
        (dateLowerStage parseDate fs.dateFrom
          (authorStage fs.author articles))))

/-- Spec-side lower date stage following the words of the claim: inclusive,
applied only when the bound is set and parses to a valid instant; an
unparseable bound behaves as if unset. -/
def claimDateLowerStage (parseDate : String → Option Int) :
    Option String → List Article → List Article
  | some s, l =>
      if s = "" then l
      else
        match parseDate s with
        | some f =>
            l.filter (fun art => art.publishedAt != "" &&
              match parseDate art.publishedAt with
              | some t => decide (f ≤ t)
              | none => false)
        | none => l
  | none, l => l

/-- Spec-side upper date stage following the words of the claim. -/
def claimDateUpperStage (parseDate : String → Option Int) :
    Option String → List Article → List Article
  | some s, l =>
      if s = "" then l
      else
        match parseDate s with
        | some f =>
            l.filter (fun art => art.publishedAt != "" &&
              match parseDate art.publishedAt with
              | some t => decide (t ≤ f)
              | none => false)
        | none => l
  | none, l => l

/-- The filter as the claim describes it: the code's stages, with the date
bounds applied only when set and parseable. -/
def claimFilterNews (parseDate : String → Option Int)
    (articles : List Article) (fs : FilterState) : List Article :=
  searchStage fs.searchQuery
    (typeStage fs.type_
      (claimDateUpperStage parseDate fs.dateTo
        (claimDateLowerStage parseDate fs.dateFrom
          (authorStage fs.author articles))))

/-- Amended lower date stage: inclusive when the set bound parses, and a set
bound that does not parse to a valid instant excludes every article. -/
def amendedDateLowerStage (parseDate : String → Option Int) :
    Option String → List Article → List Article
  | some s, l =>
      if s = "" then l
      else
        match parseDate s with
        | some f =>
            l.filter (fun art => art.publishedAt != "" &&
              match parseDate art.publishedAt with
              | some t => decide (f ≤ t)
              | none => false)
        | none => []
  | none, l => l

/-- Amended upper date stage, symmetric to the lower one. -/
def amendedDateUpperStage (parseDate : String → Option Int) :
    Option String → List Article → List Article
  | some s, l =>
      if s = "" then l
      else
        match parseDate s with
        | some f =>
            l.filter (fun art => art.publishedAt != "" &&
              match parseDate art.publishedAt with
              | some t => decide (t ≤ f)
              | none => false)
        | none => []
  | none, l => l

/-- The filter as amended: date bounds are inclusive when they parse, and a
set, unparseable bound empties the result. -/
def amendedFilterNews (parseDate : String → Option Int)
    (articles : List Article) (fs : FilterState) : List Article :=
  searchStage fs.searchQuery
    (typeStage fs.type_
      (amendedDateUpperStage parseDate fs.dateTo
        (amendedDateLowerStage parseDate fs.dateFrom
          (authorStage fs.author articles))))

/-- Concrete date parser for the counterexample: only the string "d" is a
valid instant. -/
def parseDateEx : String → Option Int := fun s => if s = "d" then some 0 else none

/-- Concrete article for the counterexample, published at the parseable
instant "d". -/
def articleEx : Article := ⟨"1", "", "", "a", "d", "news"⟩

/-- The unparseable bound string used by the counterexample. -/
def unparseableBoundEx : String := "x"

/-- Concrete filter state for the counterexample: only the lower date bound
is set, to the unparseable string "x". -/
def filterStateEx : FilterState :=
  ⟨none, some unparseableBoundEx, none, "all", ""⟩

/-- C7 counterexample: with a set but unparseable lower bound, the code's
filter drops every article instead of behaving as if the bound were unset,
so the claim as stated fails at this input. -/
theorem date_bound_unparseable_counterexample :
    filterNews parseDateEx [articleEx] filterStateEx ≠
      claimFilterNews parseDateEx [articleEx] filterStateEx := by decide

theorem dateLowerStage_amended (parseDate : String → Option Int)
    (b : Option String) (l : List Article) :
    dateLowerStage parseDate b l = amendedDateLowerStage parseDate b l := by
  cases b with
  | none => rfl
  | some s =>
      by_cases hs : s = ""
      · simp [dateLowerStage, amendedDateLowerStage, hs]
      · cases hf : parseDate s with
        | some f =>
            simp only [dateLowerStage, amendedDateLowerStage, if_neg hs, hf]
        | none =>
            simp only [dateLowerStage, amendedDateLowerStage, if_neg hs, hf]
            rw [List.filter_eq_nil_iff]
            intro a _
            cases parseDate a.publishedAt <;> simp

theorem dateUpperStage_amended (parseDate : String → Option Int)
    (b : Option String) (l : List Article) :
    dateUpperStage parseDate b l = amendedDateUpperStage parseDate b l := by
  cases b with
  | none => rfl
  | some s =>
      by_cases hs : s = ""
      · simp [dateUpperStage, amendedDateUpperStage, hs]
      · cases hf : parseDate s with
        | some f =>
            simp only [dateUpperStage, amendedDateUpperStage, if_neg hs, hf]
        | none =>
            simp only [dateUpperStage, amendedDateUpperStage, if_neg hs, hf]
            rw [List.filter_eq_nil_iff]
            intro a _
            cases parseDate a.publishedAt <;> simp

/-- C7 amended: the date-bound predicates are inclusive and applied whenever
the corresponding bound is set; a set bound that parses to a valid instant
is applied as an inclusive comparison, while a set bound that does not parse
excludes every article, so the filter result is empty rather than equal to
the result with that bound unset. -/
theorem filter_news_amended_date_bounds (parseDate : String → Option Int)
    (articles : List Article) (fs : FilterState) :
    filterNews parseDate articles fs =
      amendedFilterNews parseDate articles fs := by
  unfold filterNews amendedFilterNews
  rw [dateLowerStage_amended, dateUpperStage_amended]

/-- The useMockData development flag of the news service (the module staged
after the document separator in tests/TESTING_DOCUMENTATION.md, line 287):
set to false in the source. -/
def useMockData : Bool := false

/-- The author pool of getMockArticles (staged news service, lines
482-491). -/
def mockAuthors : List String :=
  ["Sarah Johnson", "Michael Chen", "Emily Rodriguez", "David Kim",
   "Jessica Thompson", "Alex Williams", "Maria Garcia", "James Brown"]

/-- The news topic pool of getMockArticles (staged news service, lines
493-502). -/
def newsTopics : List String :=
  ["Technology Breakthrough", "Market Analysis", "Climate Change Update",
   "Healthcare Innovation", "Economic Forecast", "Scientific Discovery",
   "Space Exploration", "Renewable Energy"]

/-- The blog topic pool of getMockArticles (staged news service, lines
504-513). -/
def blogTopics : List String :=
  ["Best Practices Guide", "Industry Insights", "Professional Tips",
   "Career Advice", "Productivity Hacks", "Leadership Strategies",
   "Innovation Trends", "Success Stories"]

/-- One generated mock article (staged news service, lines 516-542), for an
index from 0 to 19: two thirds news (`index % 3 !== 0`), topic and author
cycled through the pools by modulus.  The publication instant depends on the
current time and Math.random (a random day within the trailing 30 days);
those ambient impurities are abstracted into the `dates` parameter.  Only the
fields the embedded operations read are modelled. -/
def mockArticle (dates : Nat → String) (index : Nat) : Article :=
  let isNews := index % 3 != 0
  let topics := if isNews then newsTopics else blogTopics
  let topic := topics.getD (index % topics.length) ""
  let kind := match isNews with
    | true => "Breaking News"
    | false => "Expert Analysis"
  let coverage := match isNews with
    | true => "news coverage"
    | false => "blog analysis"
  { id := "mock-" ++ toString (index + 1),
    title := topic ++ ": " ++ kind ++ " " ++ toString (index + 1),
    description := "Comprehensive " ++ coverage ++ " of " ++ topic.toLower ++
      " with expert insights and detailed information for our readers.",
    author := mockAuthors.getD (index % mockAuthors.length) "",
    publishedAt := dates index,
    type_ := match isNews with
      | true => "news"
      | false => "blog" }

/-- getMockArticles (staged news service, lines 481-543): twenty generated
articles, `Array.from({ length: 20 }, ...)`.  The generator is pure apart
from the clock and Math.random, abstracted by `dates`: it performs no I/O
and cannot throw. -/
def getMockArticles (dates : Nat → String) : List Article :=
  (List.range 20).map (mockArticle dates)

/-- Outcomes of the effectful calls made by one run of fetchAllArticles in
the staged news service; `none` models a rejected promise.  `saveOk` tells
whether an awaited `saveArticles` call on the given collection resolves;
`online` is the result of the isOnline probe; `mockDates` abstracts the
clock and randomness of the mock generator. -/
structure FetchEnv where
  serverRoute : Option (List Article)
  newsApiTech : Option (List Article)
  newsApiBusiness : Option (List Article)
  online : Bool
  saveOk : List Article → Bool
  cacheRead : Option (List Article)
  mockDates : Nat → String

/-- Strategies 4 and 5 of fetchAllArticles (staged news service, lines
458-473): the cache read is used only when it resolves to a non-empty
collection; otherwise the mock data is the final fallback. -/
def fetchAllArticlesFromCache (env : FetchEnv) : List Article :=
  match env.cacheRead with
  | some cached =>
      if cached.length > 0 then cached else getMockArticles env.mockDates
  | none => getMockArticles env.mockDates

/-- The combined result of strategy 3's two settled direct provider calls
(staged news service, lines 432-445): fulfilled branches concatenated in
order, technology before business. -/
def combinedDirect (env : FetchEnv) : List Article :=
  (match env.newsApiTech with
   | some l => l
   | none => []) ++
  (match env.newsApiBusiness with
   | some l => l
   | none => [])

/-- Strategy 3 of fetchAllArticles (staged news service, lines 429-456): a
non-empty combined result is written to the cache with an awaited call
inside the try-block, so a throwing save is caught and demotes an otherwise
successful direct fetch to the cache-read strategy. -/
def fetchAllArticlesDirect (env : FetchEnv) : List Article :=
  if (combinedDirect env).length > 0 then
    if env.saveOk (combinedDirect env) then combinedDirect env
    else fetchAllArticlesFromCache env
  else fetchAllArticlesFromCache env

/-- fetchAllArticles (staged news service, lines 400-474): strategy 1
returns the mock data when the useMockData flag is set; strategy 2 returns a
non-empty server-route result, after an awaited cache write when the probe
reports online — a throwing write is caught and demotes to strategy 3; a
rejected or empty server-route result also falls through to strategy 3. -/
def fetchAllArticles (env : FetchEnv) : List Article :=
  if useMockData then getMockArticles env.mockDates
  else
    match env.serverRoute with
    | some articles =>
        if articles.length > 0 then
          if env.online then
            if env.saveOk articles then articles
            else fetchAllArticlesDirect env
          else articles
        else fetchAllArticlesDirect env
    | none => fetchAllArticlesDirect env

/-- C8: for every combination of outcomes of the mediated (server-route)
fetch, the direct provider fetches, the cache operations and the
connectivity probe — including all of them rejecting or yielding empty
collections — article acquisition resolves to a non-empty collection, in
the worst case the twenty generated mock articles. -/
theorem acquire_articles_nonempty (env : FetchEnv) :
    fetchAllArticles env ≠ [] := by
  have hmock : getMockArticles env.mockDates ≠ [] := by
    simp [getMockArticles]
  have hcache : fetchAllArticlesFromCache env ≠ [] := by
    unfold fetchAllArticlesFromCache
    split
    · split
      · simp_all [List.length_pos]
      · exact hmock
    · exact hmock
  have hdirect : fetchAllArticlesDirect env ≠ [] := by
    unfold fetchAllArticlesDirect
    split
    · split
      · simp_all [List.length_pos]
      · exact hcache
    · exact hcache
  unfold fetchAllArticles
  simp only [useMockData, Bool.false_eq_true, if_false]
  split
  · split
    · split
      · split
        · simp_all [List.length_pos]
        · exact hdirect
      · simp_all [List.length_pos]
    · exact hdirect
  · exact hdirect

/-- A record of the IndexedDB settings store (keyPath id): the payout rates
are stored with their key inline, as the object
spread in savePayoutRates builds it. -/
structure SettingsRecord where
  id : String
  newsRate : ℚ
  blogRate : ℚ
deriving DecidableEq

/-- The settings object store, key-indexed by the record id.  A rejected
request (storage error) is outside this model; a missing key resolves with
an absent result, as `request.result || null` does. -/
def SettingsStore : Type := String → Option SettingsRecord

/-- The fixed key of the rate singleton. -/
def payoutRatesKey : String := "payoutRates"

/-- IDBObjectStore.put on the settings store: upsert at the record's key. -/
def idbPut (store : SettingsStore) (rec : SettingsRecord) : SettingsStore :=
  fun k => if k = rec.id then some rec else store k

/-- A store in which no record has ever been saved. -/
def freshSettingsStore : SettingsStore := fun _ => none

/-- savePayoutRates (IndexedDB service, lines 341-353):
`store.put({ id: 'payoutRates', ...rates })`. -/
def savePayoutRates (store : SettingsStore) (rates : PayoutRate) :
    SettingsStore :=
  idbPut store ⟨payoutRatesKey, rates.newsRate, rates.blogRate⟩

/-- getPayoutRates (IndexedDB service, lines 355-365):
`store.get('payoutRates')`, resolving with `request.result || null`, read at
the declared type `PayoutRate | null`. -/
def getPayoutRates (store : SettingsStore) : Option PayoutRate :=
  match store payoutRatesKey with
  | some rec => some ⟨rec.newsRate, rec.blogRate⟩
  | none => none

/-- C9: the rate-configuration store round-trips: reading after a successful
save yields the saved rates, and reading a store in which no rate record was
ever saved resolves to the absent value instead of rejecting. -/
theorem payout_rates_roundtrip (store : SettingsStore) (r : PayoutRate) :
    getPayoutRates (savePayoutRates store r) = some r ∧
    getPayoutRates freshSettingsStore = none := by
  constructor
  · simp [getPayoutRates, savePayoutRates, idbPut]
  · rfl

theorem rate_resolution_defaults_blog_witness :
    rateFor ⟨2, 3⟩ "video" = (PayoutRate.mk 2 3).blogRate ∧
    (∀ (A : List Article) (p : AuthorPayout),
      p ∈ calculatePayouts A ⟨2, 3⟩ →
      ∀ it ∈ p.articles, it.type_ = "video" →
        it.rate = (PayoutRate.mk 2 3).blogRate) ∧
    (∀ (P : List AuthorPayout) (p : AuthorPayout),
      p ∈ recalculatePayouts P ⟨2, 3⟩ →
      ∀ it ∈ p.articles, it.type_ = "video" →
        it.rate = (PayoutRate.mk 2 3).blogRate) :=
  rate_resolution_defaults_blog ⟨2, 3⟩ "video" (by decide)
